import Mathlib

set_option maxRecDepth 4000

/-!
Verification of the Spark ETL pipeline in `etl.py` (song/log data lake star schema).

The embedding models the two input dataframes as Lean lists of typed rows and
each Spark transformation as a pure function on those lists:

* `process_song_data`: `songs_table` and `artists_table` are column projections
  of the parsed catalog rows (no filtering occurs in the source).
* `process_log_data`: the `userId` cast to integer (`castInt`, null on failure),
  the `page = 'NextSong'` filter (`events`), the users window
  (`partitionBy user_id, orderBy ts desc, row_number = 1`, modelled by
  `argmaxTs` over each user partition), the time table derivation
  (`mkTimeRow` implementing the Gregorian calendar decomposition used by
  `hour/dayofmonth/weekofyear/month/year/dayofweek` on the timestamp obtained
  from `datetime.fromtimestamp(ts/1000)`), and the songplays table
  (`orderBy ts`, `monotonically_increasing_id`, SQL LEFT JOIN against the
  catalog with the fuzzy duration predicate).
* The parquet writer is modelled with Spark's `DataFrameWriter` default save
  mode `ErrorIfExists` (the source never passes a `mode` option).
-/

/-- A parsed catalog (song_data) JSON record, as read by `spark.read.json`.
A field missing from the JSON object is read as null, hence `Option` for
`song_id` and `artist_id`. -/
structure SongRow where
  song_id : Option String
  title : String
  artist_id : Option String
  year : Int
  duration : Rat
  artist_name : String
  artist_location : String
  artist_latitude : Option Rat
  artist_longitude : Option Rat
deriving DecidableEq

/-- A parsed log (log_data) JSON record, as read by `spark.read.json`. -/
structure LogRow where
  userId : String
  firstName : String
  lastName : String
  gender : String
  level : String
  ts : Int
  page : String
  song : String
  artist : String
  length : Rat
  sessionId : Int
  location : String
  userAgent : String
deriving DecidableEq

/-- A log row extended with the `user_id` column added by
`df.withColumn('user_id', df.userId.cast(IntegerType()))`. -/
structure Event extends LogRow where
  user_id : Option Int
deriving DecidableEq

/-- A row of the `users` output table. -/
structure UserRecord where
  user_id : Option Int
  first_name : String
  last_name : String
  gender : String
  level : String
deriving DecidableEq

/-- Value of a decimal digit character, none for a non-digit. -/
def digitVal (c : Char) : Option Nat :=
  if c.isDigit then some (c.toNat - 48) else none

/-- Accumulating decimal parser over a list of characters. -/
def parseNatAux : List Char → Nat → Option Nat
  | [], acc => some acc
  | c :: cs, acc =>
    match digitVal c with
    | none => none
    | some d => parseNatAux cs (acc * 10 + d)

/-- Model of the Spark SQL cast of a string column to `IntegerType`:
a string that does not parse as an (optionally signed) integer casts to
null. -/
def castInt (s : String) : Option Int :=
  match s.data with
  | [] => none
  | '-' :: cs =>
    if cs = [] then none else (parseNatAux cs 0).map (fun n => -(n : Int))
  | '+' :: cs =>
    if cs = [] then none else (parseNatAux cs 0).map (fun n => (n : Int))
  | cs => (parseNatAux cs 0).map (fun n => (n : Int))

/-- `df.withColumn('user_id', df.userId.cast(IntegerType()))` applied to one row. -/
def withUserId (r : LogRow) : Event :=
  { r with user_id := castInt r.userId }

/-- The surviving play events: the log dataframe after the `user_id` cast
column is added and after `df.where(df.page == 'NextSong')`. -/
def events (rows : List LogRow) : List Event :=
  (rows.map withUserId).filter (fun e => e.page == "NextSong")

/-- The row selected by `row_number().over(Window.partitionBy('user_id')
.orderBy(col('ts').desc())) = 1` within one partition: an element with
maximal `ts` (first such element wins ties, a deterministic tie-break). -/
def argmaxTs : List Event → Option Event
  | [] => none
  | e :: l =>
    match argmaxTs l with
    | none => some e
    | some m => if e.ts < m.ts then some m else some e

/-- Projection of a surviving event to a `users` table row. -/
def mkUser (e : Event) : UserRecord :=
  { user_id := e.user_id
    first_name := e.firstName
    last_name := e.lastName
    gender := e.gender
    level := e.level }

/-- The single `users` row produced for the partition keyed by `u`
(none when no event carries that key). -/
def usersFor (evs : List Event) (u : Option Int) : Option UserRecord :=
  (argmaxTs (evs.filter (fun e => decide (e.user_id = u)))).map mkUser

/-- The `users` output table: one row per distinct `user_id` value among
surviving events, namely the row of that partition with maximal `ts`
(lines 78-81 of etl.py). -/
def users_table (rows : List LogRow) : List UserRecord :=
  let evs := events rows
  ((evs.map (fun e => e.user_id)).dedup).filterMap (usersFor evs)

theorem argmaxTs_eq_none {l : List Event} : argmaxTs l = none ↔ l = [] := by
  cases l with
  | nil => simp [argmaxTs]
  | cons e l =>
    simp only [argmaxTs]
    cases h : argmaxTs l with
    | none => simp
    | some m =>
      constructor
      · intro hc
        by_cases hlt : e.ts < m.ts <;> simp [hlt] at hc
      · intro hc
        exact absurd hc (by simp)

theorem argmaxTs_spec {l : List Event} {m : Event} (h : argmaxTs l = some m) :
    m ∈ l ∧ ∀ x ∈ l, x.ts ≤ m.ts := by
  induction l generalizing m with
  | nil => simp [argmaxTs] at h
  | cons e l ih =>
    simp only [argmaxTs] at h
    cases hl : argmaxTs l with
    | none =>
      rw [hl] at h
      obtain rfl : e = m := by simpa using h
      have : l = [] := argmaxTs_eq_none.mp hl
      subst this
      simp
    | some m' =>
      rw [hl] at h
      obtain ⟨hmem, hmax⟩ := ih hl
      by_cases hlt : e.ts < m'.ts
      · simp only [hlt, if_pos] at h
        obtain rfl : m' = m := by simpa using h
        refine ⟨List.mem_cons_of_mem _ hmem, ?_⟩
        intro x hx
        rcases List.mem_cons.mp hx with rfl | hx
        · exact le_of_lt hlt
        · exact hmax x hx
      · simp only [hlt, if_neg, not_false_iff] at h
        obtain rfl : e = m := by simpa using h
        refine ⟨List.mem_cons_self _ _, ?_⟩
        intro x hx
        rcases List.mem_cons.mp hx with rfl | hx
        · exact le_refl _
        · exact le_trans (hmax x hx) (not_lt.mp hlt)

theorem usersFor_spec {evs : List Event} {u : Option Int} {r : UserRecord}
    (h : usersFor evs u = some r) :
    r.user_id = u ∧ ∃ e ∈ evs, e.user_id = u ∧ r = mkUser e ∧
      ∀ x ∈ evs, x.user_id = u → x.ts ≤ e.ts := by
  unfold usersFor at h
  cases hm : argmaxTs (evs.filter (fun e => decide (e.user_id = u))) with
  | none => rw [hm] at h; simp at h
  | some m =>
    rw [hm] at h
    obtain rfl : mkUser m = r := by simpa using h
    obtain ⟨hmem, hmax⟩ := argmaxTs_spec hm
    obtain ⟨hmev, hmu⟩ := List.mem_filter.mp hmem
    have hmu' : m.user_id = u := of_decide_eq_true hmu
    refine ⟨hmu', m, hmev, hmu', rfl, ?_⟩
    intro x hx hxu
    exact hmax x (List.mem_filter.mpr ⟨hx, decide_eq_true hxu⟩)

theorem usersFor_isSome {evs : List Event} {u : Option Int}
    (h : ∃ e ∈ evs, e.user_id = u) : ∃ r, usersFor evs u = some r := by
  obtain ⟨e, he, heu⟩ := h
  unfold usersFor
  cases hm : argmaxTs (evs.filter (fun x => decide (x.user_id = u))) with
  | none =>
    have : evs.filter (fun x => decide (x.user_id = u)) = [] := argmaxTs_eq_none.mp hm
    have : e ∈ evs.filter (fun x => decide (x.user_id = u)) :=
      List.mem_filter.mpr ⟨he, decide_eq_true heu⟩
    simp_all
  | some m => exact ⟨mkUser m, rfl⟩

theorem countP_filterMap_local {α β : Type} (f : α → Option β) (p : β → Bool) :
    ∀ l : List α, (l.filterMap f).countP p
      = l.countP (fun a => ((f a).map p).getD false) := by
  intro l
  induction l with
  | nil => simp
  | cons a l ih =>
    cases h : f a with
    | none => simp [List.filterMap_cons, h, List.countP_cons, ih]
    | some b => simp [List.filterMap_cons, h, List.countP_cons, ih]

theorem countP_congr_local {α : Type} {p q : α → Bool} :
    ∀ {l : List α}, (∀ a ∈ l, p a = q a) → l.countP p = l.countP q := by
  intro l
  induction l with
  | nil => simp
  | cons a l ih =>
    intro h
    simp only [List.countP_cons, h a (List.mem_cons_self a l),
      ih (fun x hx => h x (List.mem_cons_of_mem a hx))]

theorem countP_eq_one_of_nodup {α : Type} [DecidableEq α] {l : List α} {a : α}
    (hn : l.Nodup) (ha : a ∈ l) : l.countP (fun x => decide (x = a)) = 1 := by
  induction l with
  | nil => simp at ha
  | cons b l ih =>
    rcases List.mem_cons.mp ha with rfl | ha
    · have hnot : a ∉ l := (List.nodup_cons.mp hn).1
      have : l.countP (fun x => decide (x = a)) = 0 := by
        rw [List.countP_eq_zero]
        intro x hx
        simp only [decide_eq_true_eq]
        intro hxa; subst hxa; exact hnot hx
      simp [List.countP_cons, this]
    · have hne : b ≠ a := by
        rintro rfl; exact (List.nodup_cons.mp hn).1 ha
      have := ih (List.nodup_cons.mp hn).2 ha
      simp [List.countP_cons, this, hne]

/-- C1: for every user_id with at least one surviving (page = "NextSong")
PlayEvent, the users table contains exactly one record for that user_id, and
its first_name, last_name, gender and level come from a surviving event of
that user with the maximum raw timestamp `ts`. -/
theorem C1_users_latest (rows : List LogRow) (uid : Int)
    (h : ∃ e ∈ events rows, e.user_id = some uid) :
    (users_table rows).countP (fun r => decide (r.user_id = some uid)) = 1 ∧
    ∃ e ∈ events rows, e.user_id = some uid ∧
      (∀ x ∈ events rows, x.user_id = some uid → x.ts ≤ e.ts) ∧
      ∃ r ∈ users_table rows, r.user_id = some uid ∧
        r.first_name = e.firstName ∧ r.last_name = e.lastName ∧
        r.gender = e.gender ∧ r.level = e.level := by
  obtain ⟨e0, he0, he0u⟩ := h
  have hmemids : (some uid) ∈ ((events rows).map (fun e => e.user_id)).dedup :=
    List.mem_dedup.mpr (List.mem_map.mpr ⟨e0, he0, he0u⟩)
  obtain ⟨r0, hr0⟩ := usersFor_isSome
    (show ∃ e ∈ events rows, e.user_id = some uid from ⟨e0, he0, he0u⟩)
  constructor
  · unfold users_table
    rw [countP_filterMap_local]
    have hcongr : ∀ u ∈ ((events rows).map (fun e => e.user_id)).dedup,
        (((usersFor (events rows) u).map
            (fun r => decide (r.user_id = some uid))).getD false)
          = decide (u = some uid) := by
      intro u _
      cases hu : usersFor (events rows) u with
      | none =>
        by_cases hud : u = some uid
        · subst hud; rw [hr0] at hu; exact absurd hu (by simp)
        · simp [hud]
      | some r =>
        have := (usersFor_spec hu).1
        simp [this]
    rw [countP_congr_local hcongr]
    exact countP_eq_one_of_nodup (List.nodup_dedup _) hmemids
  · obtain ⟨hruid, e, hev, heu, hre, hmax⟩ := usersFor_spec hr0
    refine ⟨e, hev, heu, hmax, r0, ?_, hruid, ?_⟩
    · unfold users_table
      exact List.mem_filterMap.mpr ⟨some uid, hmemids, hr0⟩
    · subst hre
      simp [mkUser]

/-- Sample log rows realizing the spec §8 scenario: two NextSong events for
user 7, `ts = 1000` with level "free" and `ts = 2000` with level "paid". -/
def sampleLogFree : LogRow :=
  { userId := "7", firstName := "Ann", lastName := "Lee", gender := "F"
    level := "free", ts := 1000, page := "NextSong", song := "Song A"
    artist := "Artist A", length := mkRat 2105 10, sessionId := 11
    location := "SF", userAgent := "ua" }

def sampleLogPaid : LogRow :=
  { sampleLogFree with level := "paid", ts := 2000 }

theorem C1_users_latest_witness :
    (∃ e ∈ events [sampleLogFree, sampleLogPaid], e.user_id = some 7) ∧
    ((users_table [sampleLogFree, sampleLogPaid]).countP
        (fun r => decide (r.user_id = some 7)) = 1 ∧
      ∃ e ∈ events [sampleLogFree, sampleLogPaid], e.user_id = some 7 ∧
        (∀ x ∈ events [sampleLogFree, sampleLogPaid],
          x.user_id = some 7 → x.ts ≤ e.ts) ∧
        ∃ r ∈ users_table [sampleLogFree, sampleLogPaid], r.user_id = some 7 ∧
          r.first_name = e.firstName ∧ r.last_name = e.lastName ∧
          r.gender = e.gender ∧ r.level = e.level) :=
  ⟨by decide, C1_users_latest [sampleLogFree, sampleLogPaid] 7 (by decide)⟩

/-- Floor of a rational, computed from its reduced numerator and denominator
(Lean's `/` on `Int` rounds toward negative infinity, matching the floor
semantics of the Python and Spark date arithmetic being modelled). -/
def ratFloor (q : Rat) : Int :=
  q.num / (q.den : Int)

/-- Days before the Gregorian March-based year `y` within a 400-year era
(Hinnant-style civil calendar arithmetic). -/
def cumDays (y : Nat) : Nat :=
  365 * y + y / 4 - y / 100

/-- Largest year-of-era `y2 ≤ y` whose first day is at or before day `doe`
of the era. -/
def findYoe : Nat → Nat → Nat
  | _, 0 => 0
  | doe, y + 1 => if cumDays (y + 1) ≤ doe then y + 1 else findYoe doe y

/-- Year-of-era of day `doe` of a 400-year era. -/
def yoeOf (doe : Nat) : Nat :=
  findYoe doe 399

/-- Month and day-of-month from a March-based day-of-year in [0, 365]. -/
def monthDayOfDoy (doy : Nat) : Nat × Nat :=
  let mp := (5 * doy + 2) / 153
  let d := doy - (153 * mp + 2) / 5 + 1
  let m := if mp < 10 then mp + 3 else mp - 9
  (m, d)

/-- Era index of a day count `z` relative to the UNIX epoch. -/
def eraOf (z : Int) : Int :=
  (z + 719468) / 146097

/-- Day-of-era (in [0, 146096]) of a day count `z` relative to the epoch. -/
def doeOf (z : Int) : Nat :=
  ((z + 719468) % 146097).toNat

/-- March-based day-of-year of a day count `z` relative to the epoch. -/
def doyOf (z : Int) : Nat :=
  doeOf z - cumDays (yoeOf (doeOf z))

/-- Gregorian month (1-12) of epoch day `z`, as used by Spark `month`. -/
def monthOf (z : Int) : Nat :=
  (monthDayOfDoy (doyOf z)).1

/-- Gregorian day-of-month (1-31) of epoch day `z`, as used by Spark
`dayofmonth`. -/
def dayOf (z : Int) : Nat :=
  (monthDayOfDoy (doyOf z)).2

/-- Gregorian year of epoch day `z`, as used by Spark `year`. -/
def yearOf (z : Int) : Int :=
  eraOf z * 400 + (yoeOf (doeOf z) : Int) + (if monthOf z ≤ 2 then 1 else 0)

/-- Epoch day count of the civil date (y, m, d) (inverse of the civil
decomposition, used for the ISO week computation). -/
def daysFromCivil (y : Int) (m d : Nat) : Int :=
  let y2 := if m ≤ 2 then y - 1 else y
  let era := y2 / 400
  let yoe := (y2 - era * 400).toNat
  let mp := if 3 ≤ m then m - 3 else m + 9
  let doy := (153 * mp + 2) / 5 + d - 1
  era * 146097 + ((365 * yoe + yoe / 4 - yoe / 100 + doy : Nat) : Int) - 719468

/-- Weekday anchor of the ISO 53-week-year rule for year `y`. -/
def isoPfunc (y : Int) : Int :=
  (y + y / 4 - y / 100 + y / 400) % 7

/-- Number of ISO weeks (52 or 53) in year `y`. -/
def weeksInYear (y : Int) : Int :=
  if isoPfunc y = 4 ∨ isoPfunc (y - 1) = 3 then 53 else 52

/-- ISO week-of-year of epoch day `z`, as used by Spark `weekofyear`. -/
def weekOfYear (z : Int) : Int :=
  let doy1 : Int := z - daysFromCivil (yearOf z) 1 1 + 1
  let wd : Int := (z + 3) % 7 + 1
  let w : Int := (doy1 - wd + 10) / 7
  if w < 1 then weeksInYear (yearOf z - 1)
  else if weeksInYear (yearOf z) < w then 1
  else w

/-- Weekday (Sunday = 1 .. Saturday = 7) of epoch day `z`, as used by Spark
`dayofweek` (epoch day 0, 1970-01-01, is a Thursday, so it maps to 5). -/
def weekdayOf (z : Int) : Int :=
  (z + 4) % 7 + 1

/-- Hour-of-day (0-23) of a timestamp given as rational epoch seconds. -/
def hourOf (t : Rat) : Int :=
  (ratFloor t % 86400) / 3600

/-- A row of the `time` output table. -/
structure TimeRow where
  start_time : Rat
  hour : Int
  day : Nat
  week : Int
  month : Nat
  year : Int
  weekday : Int
deriving DecidableEq

/-- The time-dimension row derived from a naive timestamp `t` (rational
seconds since the naive epoch), mirroring lines 92-97 of etl.py. -/
def mkTimeRow (t : Rat) : TimeRow :=
  { start_time := t
    hour := hourOf t
    day := dayOf (ratFloor t / 86400)
    week := weekOfYear (ratFloor t / 86400)
    month := monthOf (ratFloor t / 86400)
    year := yearOf (ratFloor t / 86400)
    weekday := weekdayOf (ratFloor t / 86400) }

/-- The naive local timestamp produced by `datetime.fromtimestamp(ts/1000)`:
the raw epoch milliseconds divided by 1000, shifted by the local timezone
offset `tz` (in seconds): `ts/1000 + tz = (ts + 1000*tz)/1000`. -/
def startTime (tz : Int) (ts : Int) : Rat :=
  mkRat (ts + 1000 * tz) 1000

/-- The `time` output table: one row per surviving event (lines 87-97 of
etl.py). -/
def time_table (tz : Int) (rows : List LogRow) : List TimeRow :=
  (events rows).map (fun e => mkTimeRow (startTime tz e.ts))


theorem yoeOf_le (doe : Nat) : yoeOf doe ≤ 399 := by
  unfold yoeOf
  induction 399 with
  | zero => simp [findYoe]
  | succ y ih =>
    simp only [findYoe]
    split
    · exact le_refl _
    · exact le_trans ih (Nat.le_succ y)

theorem findYoe_le (doe y : Nat) : findYoe doe y ≤ y := by
  induction y with
  | zero => simp [findYoe]
  | succ y ih =>
    simp only [findYoe]
    split
    · exact le_refl _
    · exact le_trans ih (Nat.le_succ y)

theorem cumDays_yoeOf_le (doe : Nat) : cumDays (yoeOf doe) ≤ doe := by
  unfold yoeOf
  induction 399 with
  | zero => simp [findYoe, cumDays]
  | succ y ih =>
    simp only [findYoe]
    split
    · assumption
    · exact ih

theorem yoeOf_lt_next {doe : Nat} (h : yoeOf doe < 399) :
    doe < cumDays (yoeOf doe + 1) := by
  unfold yoeOf at h ⊢
  revert h
  induction 399 with
  | zero => intro h; simp at h
  | succ y ih =>
    intro h
    by_cases hc : cumDays (y + 1) ≤ doe
    · simp [findYoe, hc] at h
    · have heq : findYoe doe (y + 1) = findYoe doe y := by simp [findYoe, hc]
      rw [heq] at h ⊢
      rcases Nat.lt_or_ge (findYoe doe y) y with hlt | hge
      · exact ih hlt
      · have hey : findYoe doe y = y := le_antisymm (findYoe_le doe y) hge
        rw [hey]
        omega

theorem doyOf_le (z : Int) : doyOf z ≤ 365 := by
  unfold doyOf
  have hdoe : doeOf z ≤ 146096 := by
    unfold doeOf
    omega
  rcases Nat.lt_or_ge (yoeOf (doeOf z)) 399 with hlt | hge
  · have h1 : doeOf z < cumDays (yoeOf (doeOf z) + 1) := yoeOf_lt_next hlt
    have h2 : cumDays (yoeOf (doeOf z) + 1) ≤ cumDays (yoeOf (doeOf z)) + 366 := by
      simp only [cumDays]
      omega
    omega
  · have h399 : yoeOf (doeOf z) = 399 := le_antisymm (yoeOf_le _) hge
    rw [h399]
    have : cumDays 399 = 145731 := by decide
    omega

theorem monthDayOfDoy_bounds {doy : Nat} (h : doy ≤ 365) :
    1 ≤ (monthDayOfDoy doy).1 ∧ (monthDayOfDoy doy).1 ≤ 12 ∧
    1 ≤ (monthDayOfDoy doy).2 ∧ (monthDayOfDoy doy).2 ≤ 31 := by
  simp only [monthDayOfDoy]
  split <;> rename_i hmp <;>
    refine ⟨by omega, by omega, by omega, ?_⟩ <;> omega

theorem monthOf_bounds (z : Int) : 1 ≤ monthOf z ∧ monthOf z ≤ 12 := by
  have := monthDayOfDoy_bounds (doyOf_le z)
  unfold monthOf
  exact ⟨this.1, this.2.1⟩

theorem dayOf_bounds (z : Int) : 1 ≤ dayOf z ∧ dayOf z ≤ 31 := by
  have := monthDayOfDoy_bounds (doyOf_le z)
  unfold dayOf
  exact ⟨this.2.2.1, this.2.2.2⟩

theorem hourOf_bounds (t : Rat) : 0 ≤ hourOf t ∧ hourOf t ≤ 23 := by
  unfold hourOf
  omega

theorem weekdayOf_bounds (z : Int) : 1 ≤ weekdayOf z ∧ weekdayOf z ≤ 7 := by
  unfold weekdayOf
  omega

theorem mkTimeRow_start (t : Rat) : (mkTimeRow t).start_time = t := rfl

theorem startTime_eq (tz ts : Int) :
    startTime tz ts = (ts : Rat) / 1000 + (tz : Rat) := by
  unfold startTime
  rw [Rat.mkRat_eq_div]
  push_cast
  ring

/-- C5: each time-table row's start_time is the raw epoch-millisecond
timestamp converted as `epoch_ms / 1000` interpreted as a (timezone-naive)
local epoch (shifted by the local offset `tz`); hour is in 0-23, day-of-month
in 1-31, month in 1-12 and weekday in 1-7 with Sunday = 1 (the timestamp
259200 s = 1970-01-04, a Sunday, maps to weekday 1 and 777600 s = 1970-01-10,
a Saturday, maps to 7); all fields are a pure function of start_time, so rows
with equal start_time are identical tuples. -/
theorem C5_time_dimension (tz : Int) (rows : List LogRow) (r : TimeRow)
    (hr : r ∈ time_table tz rows) :
    (∃ e ∈ events rows,
        r = mkTimeRow ((e.ts : Rat) / 1000 + (tz : Rat)) ∧
        r.start_time = (e.ts : Rat) / 1000 + (tz : Rat)) ∧
    (0 ≤ r.hour ∧ r.hour ≤ 23) ∧
    (1 ≤ r.day ∧ r.day ≤ 31) ∧
    (1 ≤ r.month ∧ r.month ≤ 12) ∧
    (1 ≤ r.weekday ∧ r.weekday ≤ 7) ∧
    (∀ r2 ∈ time_table tz rows, r2.start_time = r.start_time → r2 = r) ∧
    (mkTimeRow 259200).weekday = 1 ∧ (mkTimeRow 777600).weekday = 7 := by
  obtain ⟨e, he, hre⟩ := List.mem_map.mp hr
  have hre' : r = mkTimeRow (startTime tz e.ts) := hre.symm
  refine ⟨⟨e, he, ?_, ?_⟩, ?_, ?_, ?_, ?_, ?_, ?_, ?_⟩
  · rw [hre', startTime_eq]
  · rw [hre', mkTimeRow_start, startTime_eq]
  · rw [hre']; exact hourOf_bounds _
  · rw [hre']; exact dayOf_bounds _
  · rw [hre']; exact monthOf_bounds _
  · rw [hre']; exact weekdayOf_bounds _
  · intro r2 hr2 hst
    obtain ⟨e2, _, hre2⟩ := List.mem_map.mp hr2
    have hre2' : r2 = mkTimeRow (startTime tz e2.ts) := hre2.symm
    have heq : startTime tz e2.ts = startTime tz e.ts := by
      rw [hre', hre2'] at hst
      simpa [mkTimeRow_start] using hst
    rw [hre2', heq, hre']
  · decide
  · decide

theorem C5_time_dimension_witness :
    (mkTimeRow (startTime 0 2000) ∈ time_table 0 [sampleLogPaid]) ∧
    ((∃ e ∈ events [sampleLogPaid],
        mkTimeRow (startTime 0 2000) = mkTimeRow ((e.ts : Rat) / 1000 + ((0 : Int) : Rat)) ∧
        (mkTimeRow (startTime 0 2000)).start_time = (e.ts : Rat) / 1000 + ((0 : Int) : Rat)) ∧
      (0 ≤ (mkTimeRow (startTime 0 2000)).hour ∧ (mkTimeRow (startTime 0 2000)).hour ≤ 23) ∧
      (1 ≤ (mkTimeRow (startTime 0 2000)).day ∧ (mkTimeRow (startTime 0 2000)).day ≤ 31) ∧
      (1 ≤ (mkTimeRow (startTime 0 2000)).month ∧ (mkTimeRow (startTime 0 2000)).month ≤ 12) ∧
      (1 ≤ (mkTimeRow (startTime 0 2000)).weekday ∧ (mkTimeRow (startTime 0 2000)).weekday ≤ 7) ∧
      (∀ r2 ∈ time_table 0 [sampleLogPaid],
        r2.start_time = (mkTimeRow (startTime 0 2000)).start_time →
          r2 = mkTimeRow (startTime 0 2000)) ∧
      (mkTimeRow 259200).weekday = 1 ∧ (mkTimeRow 777600).weekday = 7) :=
  ⟨by decide, C5_time_dimension 0 [sampleLogPaid] _ (by decide)⟩

/-- Executable form of the fuzzy duration test `ABS(a - b) < 2` on rationals,
stated on cross-multiplied reduced numerators/denominators so that it
evaluates by kernel reduction. -/
def durClose (a b : Rat) : Bool :=
  decide ((a.num * (b.den : Int) - b.num * (a.den : Int)).natAbs
    < 2 * (a.den * b.den))

theorem durClose_iff (a b : Rat) : durClose a b = true ↔ |a - b| < 2 := by
  unfold durClose
  rw [decide_eq_true_eq]
  have hda : (0 : Rat) < (a.den : Rat) := by exact_mod_cast a.den_pos
  have hdb : (0 : Rat) < (b.den : Rat) := by exact_mod_cast b.den_pos
  have key : a - b
      = ((a.num * (b.den : Int) - b.num * (a.den : Int) : Int) : Rat)
        / ((a.den : Rat) * (b.den : Rat)) := by
    conv_lhs => rw [← Rat.num_div_den a, ← Rat.num_div_den b]
    rw [div_sub_div _ _ (ne_of_gt hda) (ne_of_gt hdb)]
    push_cast
    ring_nf
  have hD : (0 : Rat) < (a.den : Rat) * (b.den : Rat) := by positivity
  rw [key, abs_div, abs_of_pos hD, div_lt_iff₀ hD, ← Int.cast_abs,
    Int.abs_eq_natAbs]
  constructor
  · intro h
    exact_mod_cast h
  · intro h
    exact_mod_cast h

/-- The join predicate of the songplays SQL query (lines 126-129 of etl.py):
`e.song = s.title AND e.artist = s.artist_name AND ABS(e.length - s.duration) < 2`. -/
def matchPred (e : Event) (s : SongRow) : Bool :=
  (e.song == s.title) && (e.artist == s.artist_name) && durClose e.length s.duration

theorem matchPred_iff (e : Event) (s : SongRow) :
    matchPred e s = true ↔
      e.song = s.title ∧ e.artist = s.artist_name ∧
        |e.length - s.duration| < 2 := by
  unfold matchPred
  rw [Bool.and_eq_true, Bool.and_eq_true, beq_iff_eq, beq_iff_eq, durClose_iff]
  tauto

/-- Insert an event into a ts-sorted list, keeping it sorted. -/
def insertByTs (e : Event) : List Event → List Event
  | [] => [e]
  | x :: l => if e.ts < x.ts then e :: x :: l else x :: insertByTs e l

/-- Insertion sort by raw timestamp, modelling `df.orderBy('ts')` (a
deterministic realization of the engine's sort; ties keep a stable relative
order). -/
def sortByTs : List Event → List Event
  | [] => []
  | e :: l => insertByTs e (sortByTs l)

/-- The surviving events in ascending `ts` order (line 106 of etl.py). -/
def sortedEvents (rows : List LogRow) : List Event :=
  sortByTs (events rows)

/-- Indexing of a list from `n` upward, modelling the id column added by
`monotonically_increasing_id()` over the ordered dataframe (line 107): within
a single logical partition the ids are consecutive from 0; the claims only
rely on them being strictly increasing along the dataframe order, with gaps
permitted). -/
def enumFromL {α : Type} (n : Nat) : List α → List (Nat × α)
  | [] => []
  | a :: l => (n, a) :: enumFromL (n + 1) l

/-- Concatenation of per-element row lists, modelling how the LEFT JOIN emits
a block of output rows for each left-hand row. -/
def flatMapL {α β : Type} (f : α → List β) : List α → List β
  | [] => []
  | a :: l => f a ++ flatMapL f l

/-- A row of the `songplays` output table. -/
structure SongPlayRow where
  songplay_id : Nat
  start_time : Rat
  user_id : Option Int
  level : String
  song_id : Option String
  artist_id : Option String
  session_id : Int
  location : String
  user_agent : String
  year : Int
  month : Nat
deriving DecidableEq

/-- The songplays row for event `e` with id `i`, carrying the joined catalog
identity (or nulls). -/
def mkFact (tz : Int) (i : Nat) (e : Event) (sid aid : Option String) : SongPlayRow :=
  { songplay_id := i
    start_time := startTime tz e.ts
    user_id := e.user_id
    level := e.level
    song_id := sid
    artist_id := aid
    session_id := e.sessionId
    location := e.location
    user_agent := e.userAgent
    year := yearOf (ratFloor (startTime tz e.ts) / 86400)
    month := monthOf (ratFloor (startTime tz e.ts) / 86400) }

/-- The block of songplays rows emitted for one indexed event by the LEFT
JOIN: one all-null-identity row when no catalog row matches, otherwise one
row per matching catalog row. -/
def factsFor (tz : Int) (songs : List SongRow) (p : Nat × Event) : List SongPlayRow :=
  match songs.filter (fun s => matchPred p.2 s) with
  | [] => [mkFact tz p.1 p.2 none none]
  | m :: ms => (m :: ms).map (fun s => mkFact tz p.1 p.2 s.song_id s.artist_id)

/-- The `songplays` output table (lines 106-130 of etl.py): surviving events
sorted by ts, given increasing ids, LEFT JOINed against the catalog. -/
def songplays_table (tz : Int) (songs : List SongRow) (rows : List LogRow) : List SongPlayRow :=
  flatMapL (factsFor tz songs) (enumFromL 0 (sortedEvents rows))

/-- A catalog record matching `sampleLogFree` (duration 211.9 vs length
210.5, difference 1.4 < 2). -/
def sampleSongA : SongRow :=
  { song_id := some "SOA", title := "Song A", artist_id := some "ARA"
    year := 1999, duration := mkRat 2119 10, artist_name := "Artist A"
    artist_location := "NY", artist_latitude := none, artist_longitude := none }

/-- A second, distinct catalog record also matching `sampleLogFree`
(duration 210.8, difference 0.3 < 2). -/
def sampleSongB : SongRow :=
  { sampleSongA with
    song_id := some "SOB"
    artist_id := some "ARB"
    duration := mkRat 2108 10 }

theorem mem_flatMapL {α β : Type} {f : α → List β} {x : β} :
    ∀ {l : List α}, x ∈ flatMapL f l ↔ ∃ a ∈ l, x ∈ f a := by
  intro l
  induction l with
  | nil => simp [flatMapL]
  | cons a l ih => simp [flatMapL, List.mem_append, ih]

theorem flatMapL_length {α β : Type} (f : α → List β) :
    ∀ l : List α, (flatMapL f l).length = (l.map (fun a => (f a).length)).sum := by
  intro l
  induction l with
  | nil => rfl
  | cons a l ih => simp [flatMapL, ih]

theorem mem_enumFromL_le {α : Type} {p : Nat × α} :
    ∀ {n : Nat} {l : List α}, p ∈ enumFromL n l → n ≤ p.1 := by
  intro n l
  induction l generalizing n with
  | nil => intro h; simp [enumFromL] at h
  | cons a l ih =>
    intro h
    rcases List.mem_cons.mp h with rfl | h
    · exact le_refl _
    · exact le_trans (Nat.le_succ n) (ih h)

theorem mem_enumFromL_snd {α : Type} {p : Nat × α} :
    ∀ {n : Nat} {l : List α}, p ∈ enumFromL n l → p.2 ∈ l := by
  intro n l
  induction l generalizing n with
  | nil => intro h; simp [enumFromL] at h
  | cons a l ih =>
    intro h
    rcases List.mem_cons.mp h with rfl | h
    · exact List.mem_cons_self _ _
    · exact List.mem_cons_of_mem _ (ih h)

theorem enumFromL_inj {α : Type} {i : Nat} {e f : α} :
    ∀ {n : Nat} {l : List α},
      (i, e) ∈ enumFromL n l → (i, f) ∈ enumFromL n l → e = f := by
  intro n l
  induction l generalizing n with
  | nil => intro h; simp [enumFromL] at h
  | cons a l ih =>
    intro h1 h2
    rcases List.mem_cons.mp h1 with heq1 | h1
    · rcases List.mem_cons.mp h2 with heq2 | h2
      · have he : e = a := (Prod.mk.injEq _ _ _ _ ▸ heq1).2
        have hf : f = a := (Prod.mk.injEq _ _ _ _ ▸ heq2).2
        rw [he, hf]
      · have hi : i = n := (Prod.mk.injEq _ _ _ _ ▸ heq1).1
        have := mem_enumFromL_le h2
        omega
    · rcases List.mem_cons.mp h2 with heq2 | h2
      · have hi : i = n := (Prod.mk.injEq _ _ _ _ ▸ heq2).1
        have := mem_enumFromL_le h1
        omega
      · exact ih h1 h2

theorem mem_enumFromL_of_mem {α : Type} {x : α} :
    ∀ {l : List α} (n : Nat), x ∈ l → ∃ i, (i, x) ∈ enumFromL n l := by
  intro l
  induction l with
  | nil => intro n h; simp at h
  | cons a l ih =>
    intro n h
    rcases List.mem_cons.mp h with rfl | h
    · exact ⟨n, List.mem_cons_self _ _⟩
    · obtain ⟨i, hi⟩ := ih (n + 1) h
      exact ⟨i, List.mem_cons_of_mem _ hi⟩

theorem pairwise_enumFromL {α : Type} {R : α → α → Prop} :
    ∀ {l : List α} {n : Nat}, l.Pairwise R →
      (enumFromL n l).Pairwise (fun p q => p.1 < q.1 ∧ R p.2 q.2) := by
  intro l
  induction l with
  | nil => intro n _; exact List.Pairwise.nil
  | cons a l ih =>
    intro n h
    rw [List.pairwise_cons] at h
    refine List.Pairwise.cons ?_ (ih h.2)
    intro q hq
    exact ⟨lt_of_lt_of_le (Nat.lt_succ_self n) (mem_enumFromL_le hq),
      h.1 q.2 (mem_enumFromL_snd hq)⟩

theorem pairwise_of_forall_mem {β : Type} {R : β → β → Prop} :
    ∀ {l : List β}, (∀ x ∈ l, ∀ y ∈ l, R x y) → l.Pairwise R := by
  intro l
  induction l with
  | nil => intro _; exact List.Pairwise.nil
  | cons a l ih =>
    intro h
    refine List.Pairwise.cons
      (fun y hy => h a (List.mem_cons_self _ _) y (List.mem_cons_of_mem _ hy))
      (ih ?_)
    intro x hx y hy
    exact h x (List.mem_cons_of_mem _ hx) y (List.mem_cons_of_mem _ hy)

theorem pairwise_flatMapL {α β : Type} {f : α → List β} {R : β → β → Prop} :
    ∀ {l : List α}, (∀ a ∈ l, (f a).Pairwise R) →
      l.Pairwise (fun a b => ∀ x ∈ f a, ∀ y ∈ f b, R x y) →
      (flatMapL f l).Pairwise R := by
  intro l
  induction l with
  | nil => intro _ _; exact List.Pairwise.nil
  | cons a l ih =>
    intro hin hcross
    rw [List.pairwise_cons] at hcross
    show (f a ++ flatMapL f l).Pairwise R
    rw [List.pairwise_append]
    refine ⟨hin a (List.mem_cons_self _ _),
      ih (fun b hb => hin b (List.mem_cons_of_mem _ hb)) hcross.2, ?_⟩
    intro x hx y hy
    obtain ⟨b, hb, hyb⟩ := mem_flatMapL.mp hy
    exact hcross.1 b hb x hx y hyb

theorem insertByTs_perm (e : Event) :
    ∀ l : List Event, List.Perm (insertByTs e l) (e :: l) := by
  intro l
  induction l with
  | nil => exact List.Perm.refl _
  | cons x l ih =>
    simp only [insertByTs]
    split
    · exact List.Perm.refl _
    · exact (List.Perm.cons x ih).trans (List.Perm.swap e x l)

theorem sortByTs_perm : ∀ l : List Event, List.Perm (sortByTs l) l := by
  intro l
  induction l with
  | nil => exact List.Perm.refl _
  | cons e l ih =>
    exact (insertByTs_perm e (sortByTs l)).trans (List.Perm.cons e ih)

theorem pairwise_insertByTs {e : Event} :
    ∀ {l : List Event}, l.Pairwise (fun a b => a.ts ≤ b.ts) →
      (insertByTs e l).Pairwise (fun a b => a.ts ≤ b.ts) := by
  intro l
  induction l with
  | nil => intro _; simp [insertByTs]
  | cons x l ih =>
    intro h
    rw [List.pairwise_cons] at h
    simp only [insertByTs]
    split
    · rename_i hlt
      refine List.Pairwise.cons ?_ (List.Pairwise.cons h.1 h.2)
      intro y hy
      rcases List.mem_cons.mp hy with rfl | hy
      · exact le_of_lt hlt
      · exact le_trans (le_of_lt hlt) (h.1 y hy)
    · rename_i hge
      refine List.Pairwise.cons ?_ (ih h.2)
      intro y hy
      have hy2 : y ∈ e :: l := (insertByTs_perm e l).mem_iff.mp hy
      rcases List.mem_cons.mp hy2 with rfl | hy2
      · exact not_lt.mp hge
      · exact h.1 y hy2

theorem sortByTs_pairwise :
    ∀ l : List Event, (sortByTs l).Pairwise (fun a b => a.ts ≤ b.ts) := by
  intro l
  induction l with
  | nil => exact List.Pairwise.nil
  | cons e l ih => exact pairwise_insertByTs ih

theorem factsFor_ne_nil (tz : Int) (songs : List SongRow) (p : Nat × Event) :
    factsFor tz songs p ≠ [] := by
  unfold factsFor
  split
  · simp
  · simp

theorem mem_factsFor {tz : Int} {songs : List SongRow} {p : Nat × Event}
    {r : SongPlayRow} (h : r ∈ factsFor tz songs p) :
    r.songplay_id = p.1 ∧ r.start_time = startTime tz p.2.ts ∧
      r.user_id = p.2.user_id := by
  unfold factsFor at h
  split at h
  · rw [List.mem_singleton] at h
    rw [h]
    exact ⟨rfl, rfl, rfl⟩
  · obtain ⟨s, _, hr⟩ := List.mem_map.mp h
    rw [← hr]
    exact ⟨rfl, rfl, rfl⟩

theorem factsFor_cases {tz : Int} {songs : List SongRow} {p : Nat × Event}
    {r : SongPlayRow} (h : r ∈ factsFor tz songs p) :
    (songs.filter (fun s => matchPred p.2 s) = [] ∧
      r = mkFact tz p.1 p.2 none none) ∨
    (∃ s ∈ songs, matchPred p.2 s = true ∧
      r = mkFact tz p.1 p.2 s.song_id s.artist_id) := by
  unfold factsFor at h
  cases hfil : songs.filter (fun s => matchPred p.2 s) with
  | nil =>
    rw [hfil] at h
    rw [List.mem_singleton] at h
    exact Or.inl ⟨rfl, h⟩
  | cons m ms =>
    rw [hfil] at h
    obtain ⟨s, hs, hr⟩ := List.mem_map.mp h
    rw [← hfil] at hs
    obtain ⟨hsongs, hmatch⟩ := List.mem_filter.mp hs
    exact Or.inr ⟨s, hsongs, hmatch, hr.symm⟩

theorem startTime_le_iff {tz a b : Int} :
    startTime tz a ≤ startTime tz b ↔ a ≤ b := by
  rw [startTime_eq, startTime_eq, add_le_add_iff_right,
    div_le_div_iff_of_pos_right (by norm_num : (0 : Rat) < 1000)]
  exact_mod_cast Iff.rfl

theorem startTime_lt_iff {tz a b : Int} :
    startTime tz a < startTime tz b ↔ a < b := by
  rw [startTime_eq, startTime_eq, add_lt_add_iff_right,
    div_lt_div_iff_of_pos_right (by norm_num : (0 : Rat) < 1000)]
  exact_mod_cast Iff.rfl

/-- C2: a songplays row carries non-null song_id and artist_id exactly when
some catalog record matches its originating event on exact song title, exact
artist name, and duration within a strict 2-second tolerance; with no match
both ids are null and a row is still emitted. Catalog rows are assumed to
carry their identifying ids (spec section 3: a SongRecord is keyed by
song_id). -/
theorem C2_fact_match (tz : Int) (songs : List SongRow) (rows : List LogRow)
    (hwf : ∀ s ∈ songs, s.song_id ≠ none ∧ s.artist_id ≠ none)
    (i : Nat) (e : Event) (hmem : (i, e) ∈ enumFromL 0 (sortedEvents rows)) :
    (∃ r ∈ songplays_table tz songs rows, r.songplay_id = i) ∧
    ∀ r ∈ songplays_table tz songs rows, r.songplay_id = i →
      ((r.song_id ≠ none ∧ r.artist_id ≠ none) ↔
        ∃ s ∈ songs, e.song = s.title ∧ e.artist = s.artist_name ∧
          |e.length - s.duration| < 2) ∧
      ((¬ ∃ s ∈ songs, e.song = s.title ∧ e.artist = s.artist_name ∧
          |e.length - s.duration| < 2) →
        r.song_id = none ∧ r.artist_id = none) := by
  constructor
  · obtain ⟨r, hr⟩ := List.exists_mem_of_ne_nil _ (factsFor_ne_nil tz songs (i, e))
    exact ⟨r, mem_flatMapL.mpr ⟨(i, e), hmem, hr⟩, (mem_factsFor hr).1⟩
  · intro r hr hid
    obtain ⟨p, hp, hrp⟩ := mem_flatMapL.mp hr
    have hpi : p.1 = i := by rw [← (mem_factsFor hrp).1, hid]
    have hpe : p.2 = e := by
      refine enumFromL_inj (n := 0) (l := sortedEvents rows) ?_ hmem
      rw [← hpi]
      simpa using hp
    rcases factsFor_cases hrp with ⟨hfil, hre⟩ | ⟨s, hs, hm, hre⟩
    · have hnomatch : ¬ ∃ s ∈ songs, e.song = s.title ∧ e.artist = s.artist_name ∧
          |e.length - s.duration| < 2 := by
        rintro ⟨s, hs, h1, h2, h3⟩
        have hsf : s ∈ songs.filter (fun s => matchPred p.2 s) := by
          refine List.mem_filter.mpr ⟨hs, ?_⟩
          rw [matchPred_iff, hpe]
          exact ⟨h1, h2, h3⟩
        rw [hfil] at hsf
        simp at hsf
      refine ⟨⟨?_, ?_⟩, ?_⟩
      · intro hcon
        rw [hre] at hcon
        exact absurd rfl hcon.1
      · intro hcon
        exact absurd hcon hnomatch
      · intro _
        rw [hre]
        exact ⟨rfl, rfl⟩
    · have hm' := (matchPred_iff p.2 s).mp hm
      rw [hpe] at hm'
      rw [hre]
      refine ⟨⟨fun _ => ⟨s, hs, hm'⟩, fun _ => ⟨(hwf s hs).1, (hwf s hs).2⟩⟩, ?_⟩
      intro hno
      exact absurd ⟨s, hs, hm'⟩ hno

theorem C2_fact_match_witness :
    (∀ s ∈ [sampleSongA], s.song_id ≠ none ∧ s.artist_id ≠ none) ∧
    ((0, withUserId sampleLogFree) ∈ enumFromL 0 (sortedEvents [sampleLogFree])) ∧
    ((∃ r ∈ songplays_table 0 [sampleSongA] [sampleLogFree], r.songplay_id = 0) ∧
      ∀ r ∈ songplays_table 0 [sampleSongA] [sampleLogFree], r.songplay_id = 0 →
        ((r.song_id ≠ none ∧ r.artist_id ≠ none) ↔
          ∃ s ∈ [sampleSongA], (withUserId sampleLogFree).song = s.title ∧
            (withUserId sampleLogFree).artist = s.artist_name ∧
            |(withUserId sampleLogFree).length - s.duration| < 2) ∧
        ((¬ ∃ s ∈ [sampleSongA], (withUserId sampleLogFree).song = s.title ∧
            (withUserId sampleLogFree).artist = s.artist_name ∧
            |(withUserId sampleLogFree).length - s.duration| < 2) →
          r.song_id = none ∧ r.artist_id = none)) :=
  ⟨by decide, by decide,
    C2_fact_match 0 [sampleSongA] [sampleLogFree] (by decide) 0
      (withUserId sampleLogFree) (by decide)⟩

theorem factsFor_length (tz : Int) (songs : List SongRow) (p : Nat × Event) :
    (factsFor tz songs p).length
      = max (songs.countP (fun s => matchPred p.2 s)) 1 := by
  unfold factsFor
  rw [List.countP_eq_length_filter]
  cases hfil : songs.filter (fun s => matchPred p.2 s) with
  | nil => simp
  | cons m ms =>
    simp only [List.length_map, List.length_cons]
    omega

theorem map_enumFromL {α β : Type} (g : α → β) :
    ∀ (n : Nat) (l : List α), (enumFromL n l).map (fun p => g p.2) = l.map g := by
  intro n l
  induction l generalizing n with
  | nil => rfl
  | cons a l ih => simp [enumFromL, ih]

theorem filter_all_true {α : Type} {q : α → Bool} :
    ∀ {l : List α}, (∀ a ∈ l, q a = true) → l.filter q = l := by
  intro l
  induction l with
  | nil => intro _; rfl
  | cons a l ih =>
    intro h
    have ha := h a (List.mem_cons_self a l)
    have ht := ih (fun x hx => h x (List.mem_cons_of_mem a hx))
    simp [List.filter_cons, ha, ht]

theorem filter_all_false {α : Type} {q : α → Bool} :
    ∀ {l : List α}, (∀ a ∈ l, q a = false) → l.filter q = [] := by
  intro l
  induction l with
  | nil => intro _; rfl
  | cons a l ih =>
    intro h
    have ha := h a (List.mem_cons_self a l)
    have ht := ih (fun x hx => h x (List.mem_cons_of_mem a hx))
    simp [List.filter_cons, ha, ht]

theorem factsFor_of_no_match {tz : Int} {songs : List SongRow} {p : Nat × Event}
    (h : songs.filter (fun s => matchPred p.2 s) = []) :
    factsFor tz songs p = [mkFact tz p.1 p.2 none none] := by
  unfold factsFor
  rw [h]

theorem factsFor_of_match {tz : Int} {songs : List SongRow} {p : Nat × Event}
    (h : songs.filter (fun s => matchPred p.2 s) ≠ []) :
    factsFor tz songs p
      = (songs.filter (fun s => matchPred p.2 s)).map
          (fun s => mkFact tz p.1 p.2 s.song_id s.artist_id) := by
  unfold factsFor
  cases hfil : songs.filter (fun s => matchPred p.2 s) with
  | nil => exact absurd hfil h
  | cons m ms => rfl

theorem filter_flatMapL_facts (tz : Int) (songs : List SongRow) :
    ∀ {L : List (Nat × Event)} {i : Nat} {e : Event},
      L.Pairwise (fun p q => p.1 < q.1) → (i, e) ∈ L →
      (flatMapL (factsFor tz songs) L).filter
          (fun r => decide (r.songplay_id = i))
        = factsFor tz songs (i, e) := by
  intro L
  induction L with
  | nil => intro i e _ hmem; simp at hmem
  | cons p L ih =>
    intro i e hpw hmem
    rw [List.pairwise_cons] at hpw
    show ((factsFor tz songs p) ++ flatMapL (factsFor tz songs) L).filter
        (fun r => decide (r.songplay_id = i)) = factsFor tz songs (i, e)
    rw [List.filter_append]
    rcases List.mem_cons.mp hmem with heq | hmem2
    · have hp1 : p.1 = i := by rw [← heq]
      have hself : (factsFor tz songs p).filter
          (fun r => decide (r.songplay_id = i)) = factsFor tz songs p :=
        filter_all_true (fun r hr => by
          have h1 := (mem_factsFor hr).1
          simp [h1, hp1])
      have hnil : (flatMapL (factsFor tz songs) L).filter
          (fun r => decide (r.songplay_id = i)) = [] :=
        filter_all_false (fun r hr => by
          obtain ⟨q, hq, hrq⟩ := mem_flatMapL.mp hr
          have h1 := (mem_factsFor hrq).1
          have hlt : p.1 < q.1 := hpw.1 q hq
          have hne : q.1 ≠ i := by omega
          simp [h1, hne])
      rw [hself, hnil, List.append_nil, ← heq]
    · have hlt : p.1 < i := hpw.1 (i, e) hmem2
      have hnil : (factsFor tz songs p).filter
          (fun r => decide (r.songplay_id = i)) = [] :=
        filter_all_false (fun r hr => by
          have h1 := (mem_factsFor hr).1
          have hne : p.1 ≠ i := by omega
          simp [h1, hne])
      rw [hnil, List.nil_append]
      exact ih hpw.2 hmem2

/-- C3 (amended): per surviving event, the LEFT JOIN emits exactly one
all-null-identity row when no catalog record matches, and otherwise exactly
one row per matching catalog record (in catalog order), every row carrying
that event's songplay_id; in aggregate the table has one row per
(event, match) pair, with unmatched events counting once. -/
theorem C3_left_join_multiplicity (tz : Int) (songs : List SongRow) (rows : List LogRow) :
    (songplays_table tz songs rows).length
      = ((sortedEvents rows).map
          (fun e => max (songs.countP (fun s => matchPred e s)) 1)).sum ∧
    ∀ i : Nat, ∀ e : Event, (i, e) ∈ enumFromL 0 (sortedEvents rows) →
      (songs.filter (fun s => matchPred e s) = [] →
        (songplays_table tz songs rows).filter
            (fun r => decide (r.songplay_id = i))
          = [mkFact tz i e none none]) ∧
      (songs.filter (fun s => matchPred e s) ≠ [] →
        (songplays_table tz songs rows).filter
            (fun r => decide (r.songplay_id = i))
          = (songs.filter (fun s => matchPred e s)).map
              (fun s => mkFact tz i e s.song_id s.artist_id)) := by
  constructor
  · unfold songplays_table
    rw [flatMapL_length]
    have h1 : (enumFromL 0 (sortedEvents rows)).map
        (fun p => (factsFor tz songs p).length)
        = (enumFromL 0 (sortedEvents rows)).map
          (fun p => max (songs.countP (fun s => matchPred p.2 s)) 1) :=
      List.map_congr_left (fun p _ => factsFor_length tz songs p)
    rw [h1,
      map_enumFromL (fun e => max (songs.countP (fun s => matchPred e s)) 1) 0
        (sortedEvents rows)]
  · intro i e hmem
    have hsorted : (sortedEvents rows).Pairwise (fun a b => a.ts ≤ b.ts) :=
      sortByTs_pairwise (events rows)
    have hpw : (enumFromL 0 (sortedEvents rows)).Pairwise (fun p q => p.1 < q.1) :=
      (pairwise_enumFromL hsorted).imp (fun h => h.1)
    have hblock : (songplays_table tz songs rows).filter
        (fun r => decide (r.songplay_id = i)) = factsFor tz songs (i, e) :=
      filter_flatMapL_facts tz songs hpw hmem
    constructor
    · intro hfil
      rw [hblock]
      exact factsFor_of_no_match hfil
    · intro hfil
      rw [hblock]
      exact factsFor_of_match hfil

theorem C3_left_join_multiplicity_witness :
    (songplays_table 0 [sampleSongA, sampleSongB] [sampleLogFree]).length
      = ((sortedEvents [sampleLogFree]).map
          (fun e => max ([sampleSongA, sampleSongB].countP
            (fun s => matchPred e s)) 1)).sum ∧
    ∀ i : Nat, ∀ e : Event, (i, e) ∈ enumFromL 0 (sortedEvents [sampleLogFree]) →
      ([sampleSongA, sampleSongB].filter (fun s => matchPred e s) = [] →
        (songplays_table 0 [sampleSongA, sampleSongB] [sampleLogFree]).filter
            (fun r => decide (r.songplay_id = i))
          = [mkFact 0 i e none none]) ∧
      ([sampleSongA, sampleSongB].filter (fun s => matchPred e s) ≠ [] →
        (songplays_table 0 [sampleSongA, sampleSongB] [sampleLogFree]).filter
            (fun r => decide (r.songplay_id = i))
          = ([sampleSongA, sampleSongB].filter (fun s => matchPred e s)).map
              (fun s => mkFact 0 i e s.song_id s.artist_id)) :=
  C3_left_join_multiplicity 0 [sampleSongA, sampleSongB] [sampleLogFree]

theorem C3_exactly_one_counterexample :
    (events [sampleLogFree]).length = 1 ∧
    (songplays_table 0 [sampleSongA, sampleSongB] [sampleLogFree]).length = 2 ∧
    (songplays_table 0 [sampleSongA, sampleSongB] [sampleLogFree]).map
      (fun r => r.song_id) = [some "SOA", some "SOB"] := by
  decide

/-- C4 (amended): in emission order the songplays table is weakly sorted by
start_time with weakly increasing songplay_id, and rows of strictly later
timestamps carry strictly larger ids; rows emitted for the same event (one
per catalog match) share one id, so ids are not strictly increasing when an
event has several matches. -/
theorem C4_ids_monotone (tz : Int) (songs : List SongRow) (rows : List LogRow) :
    List.Pairwise
      (fun r1 r2 => r1.start_time ≤ r2.start_time ∧ r1.songplay_id ≤ r2.songplay_id)
      (songplays_table tz songs rows) ∧
    ∀ r1 ∈ songplays_table tz songs rows, ∀ r2 ∈ songplays_table tz songs rows,
      r1.start_time < r2.start_time → r1.songplay_id < r2.songplay_id := by
  have hsorted : (sortedEvents rows).Pairwise (fun a b => a.ts ≤ b.ts) :=
    sortByTs_pairwise (events rows)
  have henum : (enumFromL 0 (sortedEvents rows)).Pairwise
      (fun p q => p.1 < q.1 ∧ p.2.ts ≤ q.2.ts) :=
    pairwise_enumFromL hsorted
  constructor
  · refine pairwise_flatMapL ?_ ?_
    · intro p _
      refine pairwise_of_forall_mem ?_
      intro x hx y hy
      obtain ⟨hx1, hx2, _⟩ := mem_factsFor hx
      obtain ⟨hy1, hy2, _⟩ := mem_factsFor hy
      rw [hx1, hy1, hx2, hy2]
      exact ⟨le_refl _, le_refl _⟩
    · refine henum.imp ?_
      intro p q hpq x hx y hy
      obtain ⟨hx1, hx2, _⟩ := mem_factsFor hx
      obtain ⟨hy1, hy2, _⟩ := mem_factsFor hy
      rw [hx1, hy1, hx2, hy2]
      exact ⟨startTime_le_iff.mpr hpq.2, le_of_lt hpq.1⟩
  · intro r1 hr1 r2 hr2 hlt
    obtain ⟨p, hp, hrp⟩ := mem_flatMapL.mp hr1
    obtain ⟨q, hq, hrq⟩ := mem_flatMapL.mp hr2
    obtain ⟨hp1, hp2, _⟩ := mem_factsFor hrp
    obtain ⟨hq1, hq2, _⟩ := mem_factsFor hrq
    rw [hp2, hq2] at hlt
    have hts : p.2.ts < q.2.ts := startTime_lt_iff.mp hlt
    rw [hp1, hq1]
    by_contra hcon
    push_neg at hcon
    obtain ⟨ip, hip⟩ := List.mem_iff_get.mp hp
    obtain ⟨iq, hiq⟩ := List.mem_iff_get.mp hq
    rcases lt_trichotomy ip iq with h1 | h1 | h1
    · have h2 := (List.pairwise_iff_get.mp henum) ip iq h1
      rw [hip, hiq] at h2
      omega
    · have hpq : p = q := by rw [← hip, ← hiq, h1]
      rw [hpq] at hts
      exact absurd hts (lt_irrefl _)
    · have h2 := (List.pairwise_iff_get.mp henum) iq ip h1
      rw [hip, hiq] at h2
      have := h2.2
      omega

theorem C4_ids_monotone_witness :
    List.Pairwise
      (fun r1 r2 => r1.start_time ≤ r2.start_time ∧ r1.songplay_id ≤ r2.songplay_id)
      (songplays_table 0 [sampleSongA] [sampleLogFree, sampleLogPaid]) ∧
    ∀ r1 ∈ songplays_table 0 [sampleSongA] [sampleLogFree, sampleLogPaid],
      ∀ r2 ∈ songplays_table 0 [sampleSongA] [sampleLogFree, sampleLogPaid],
        r1.start_time < r2.start_time → r1.songplay_id < r2.songplay_id :=
  C4_ids_monotone 0 [sampleSongA] [sampleLogFree, sampleLogPaid]

theorem C4_strict_increase_counterexample :
    (songplays_table 0 [sampleSongA, sampleSongB] [sampleLogFree]).map
        (fun r => r.songplay_id) = [0, 0] ∧
    (songplays_table 0 [sampleSongA, sampleSongB] [sampleLogFree]).map
        (fun r => r.start_time) = [startTime 0 1000, startTime 0 1000] ∧
    ¬ List.Chain' (fun a b => a < b)
      ((songplays_table 0 [sampleSongA, sampleSongB] [sampleLogFree]).map
        (fun r => r.songplay_id)) := by
  have hmap : (songplays_table 0 [sampleSongA, sampleSongB] [sampleLogFree]).map
      (fun r => r.songplay_id) = [0, 0] := by decide
  refine ⟨hmap, by decide, ?_⟩
  rw [hmap]
  intro h
  exact absurd (List.chain'_cons.mp h).1 (lt_irrefl 0)

/-- A row of the `songs` output table
(`df.select(['song_id', 'title', 'artist_id', 'year', 'duration'])`). -/
structure SongsRow where
  song_id : Option String
  title : String
  artist_id : Option String
  year : Int
  duration : Rat
deriving DecidableEq

/-- A row of the `artists` output table (the `artist_`-prefixed columns with
the prefix stripped by the selectExpr renames of lines 50-52). -/
structure ArtistRow where
  artist_id : Option String
  name : String
  location : String
  latitude : Option Rat
  longitude : Option Rat
deriving DecidableEq

/-- The `songs` output table: a plain projection of every catalog record
(line 44 of etl.py; no filtering occurs). -/
def songs_table (catalog : List SongRow) : List SongsRow :=
  catalog.map (fun s =>
    { song_id := s.song_id, title := s.title, artist_id := s.artist_id,
      year := s.year, duration := s.duration })

/-- The `artists` output table: a plain projection of every catalog record
(lines 50-52 of etl.py; no deduplication by artist_id occurs). -/
def artists_table (catalog : List SongRow) : List ArtistRow :=
  catalog.map (fun s =>
    { artist_id := s.artist_id, name := s.artist_name,
      location := s.artist_location, latitude := s.artist_latitude,
      longitude := s.artist_longitude })

/-- A catalog record with a missing (null) song_id. -/
def noIdSong : SongRow :=
  { sampleSongA with song_id := none }

/-- A catalog record sharing `sampleSongA`'s artist under another song_id. -/
def sampleSongA2 : SongRow :=
  { sampleSongA with song_id := some "SOC" }

/-- A log record whose userId does not cast to an integer. -/
def badCastLog : LogRow :=
  { sampleLogFree with userId := "abc" }

/-- A log record with a non-playback page value. -/
def pageViewLog : LogRow :=
  { sampleLogFree with page := "PageView" }

theorem C6_drop_counterexample :
    castInt "abc" = none ∧
    (users_table [badCastLog]).length = 1 ∧
    (users_table [badCastLog]).map (fun r => r.user_id) = [none] ∧
    (time_table 0 [badCastLog]).length = 1 ∧
    (songplays_table 0 [] [badCastLog]).length = 1 := by
  decide

/-- C6 (amended): a log record whose userId fails the integer cast is not
dropped: if its page is "NextSong" it survives with a null user_id and still
contributes to the users table (a null-user_id row survives the window), to
the time table, and to the songplays table. -/
theorem C6_cast_failure_kept (tz : Int) (songs : List SongRow) (rows : List LogRow)
    (r : LogRow) (hr : r ∈ rows) (hp : r.page = "NextSong")
    (hc : castInt r.userId = none) :
    withUserId r ∈ events rows ∧ (withUserId r).user_id = none ∧
    (∃ u ∈ users_table rows, u.user_id = none) ∧
    (time_table tz rows).length = (events rows).length ∧
    ∃ i, (i, withUserId r) ∈ enumFromL 0 (sortedEvents rows) ∧
      ∃ f ∈ songplays_table tz songs rows, f.songplay_id = i ∧ f.user_id = none := by
  have hmem : withUserId r ∈ events rows := by
    refine List.mem_filter.mpr ⟨List.mem_map.mpr ⟨r, hr, rfl⟩, ?_⟩
    simp [withUserId, hp]
  have huid : (withUserId r).user_id = none := by
    simp [withUserId, hc]
  refine ⟨hmem, huid, ?_, List.length_map _ _, ?_⟩
  · obtain ⟨u, hu⟩ := usersFor_isSome
      (show ∃ e ∈ events rows, e.user_id = none from ⟨withUserId r, hmem, huid⟩)
    refine ⟨u, ?_, (usersFor_spec hu).1⟩
    unfold users_table
    exact List.mem_filterMap.mpr
      ⟨none, List.mem_dedup.mpr (List.mem_map.mpr ⟨withUserId r, hmem, huid⟩), hu⟩
  · have hsm : withUserId r ∈ sortedEvents rows :=
      (sortByTs_perm (events rows)).mem_iff.mpr hmem
    obtain ⟨i, hi⟩ := mem_enumFromL_of_mem 0 hsm
    obtain ⟨f, hf⟩ := List.exists_mem_of_ne_nil _
      (factsFor_ne_nil tz songs (i, withUserId r))
    obtain ⟨hf1, _, hf3⟩ := mem_factsFor hf
    exact ⟨i, hi, f, mem_flatMapL.mpr ⟨(i, withUserId r), hi, hf⟩, hf1,
      by rw [hf3]; exact huid⟩

theorem C6_cast_failure_kept_witness :
    (badCastLog ∈ [badCastLog] ∧ badCastLog.page = "NextSong" ∧
      castInt badCastLog.userId = none) ∧
    (withUserId badCastLog ∈ events [badCastLog] ∧
      (withUserId badCastLog).user_id = none ∧
      (∃ u ∈ users_table [badCastLog], u.user_id = none) ∧
      (time_table 0 [badCastLog]).length = (events [badCastLog]).length ∧
      ∃ i, (i, withUserId badCastLog) ∈ enumFromL 0 (sortedEvents [badCastLog]) ∧
        ∃ f ∈ songplays_table 0 [] [badCastLog], f.songplay_id = i ∧
          f.user_id = none) :=
  ⟨⟨by decide, by decide, by decide⟩,
    C6_cast_failure_kept 0 [] [badCastLog] badCastLog (by decide) (by decide)
      (by decide)⟩

theorem C7_drop_counterexample :
    noIdSong.song_id = none ∧
    (songs_table [noIdSong]).length = 1 ∧
    (songs_table [noIdSong]).map (fun r => r.song_id) = [none] ∧
    (artists_table [noIdSong]).length = 1 := by
  decide

/-- C7 (amended): no catalog filtering occurs: every catalog record, with or
without a song_id, contributes exactly one row to the songs table and one row
to the artists table (and no error is raised; the pipeline is total). -/
theorem C7_no_catalog_filtering (catalog : List SongRow) :
    (songs_table catalog).length = catalog.length ∧
    (artists_table catalog).length = catalog.length ∧
    ∀ s ∈ catalog,
      ({ song_id := s.song_id, title := s.title, artist_id := s.artist_id,
         year := s.year, duration := s.duration } : SongsRow)
        ∈ songs_table catalog ∧
      ({ artist_id := s.artist_id, name := s.artist_name,
         location := s.artist_location, latitude := s.artist_latitude,
         longitude := s.artist_longitude } : ArtistRow)
        ∈ artists_table catalog := by
  refine ⟨List.length_map _ _, List.length_map _ _, ?_⟩
  intro s hs
  exact ⟨List.mem_map.mpr ⟨s, hs, rfl⟩, List.mem_map.mpr ⟨s, hs, rfl⟩⟩

theorem C7_no_catalog_filtering_witness :
    (songs_table [noIdSong]).length = [noIdSong].length ∧
    (artists_table [noIdSong]).length = [noIdSong].length ∧
    ∀ s ∈ [noIdSong],
      ({ song_id := s.song_id, title := s.title, artist_id := s.artist_id,
         year := s.year, duration := s.duration } : SongsRow)
        ∈ songs_table [noIdSong] ∧
      ({ artist_id := s.artist_id, name := s.artist_name,
         location := s.artist_location, latitude := s.artist_latitude,
         longitude := s.artist_longitude } : ArtistRow)
        ∈ artists_table [noIdSong] :=
  C7_no_catalog_filtering [noIdSong]

/-- C9: a log record whose page is not "NextSong" contributes no row: the
users, time and songplays tables computed with the record present equal the
tables computed with it removed. -/
theorem C9_non_nextsong_ignored (tz : Int) (songs : List SongRow)
    (l1 l2 : List LogRow) (r : LogRow) (hp : r.page ≠ "NextSong") :
    users_table (l1 ++ r :: l2) = users_table (l1 ++ l2) ∧
    time_table tz (l1 ++ r :: l2) = time_table tz (l1 ++ l2) ∧
    songplays_table tz songs (l1 ++ r :: l2)
      = songplays_table tz songs (l1 ++ l2) := by
  have hev : events (l1 ++ r :: l2) = events (l1 ++ l2) := by
    unfold events
    rw [List.map_append, List.map_cons, List.map_append,
      List.filter_append, List.filter_append, List.filter_cons]
    have hpage : ((withUserId r).page == "NextSong") = false := by
      simp only [withUserId]
      exact beq_eq_false_iff_ne.mpr hp
    rw [hpage]
    simp
  refine ⟨?_, ?_, ?_⟩
  · unfold users_table
    rw [hev]
  · unfold time_table
    rw [hev]
  · unfold songplays_table sortedEvents
    rw [hev]

theorem C9_non_nextsong_ignored_witness :
    pageViewLog.page ≠ "NextSong" ∧
    (users_table ([] ++ pageViewLog :: []) = users_table ([] ++ []) ∧
      time_table 0 ([] ++ pageViewLog :: []) = time_table 0 ([] ++ []) ∧
      songplays_table 0 [] ([] ++ pageViewLog :: [])
        = songplays_table 0 [] ([] ++ [])) :=
  ⟨by decide, C9_non_nextsong_ignored 0 [] [] [] pageViewLog (by decide)⟩

/-- C10: the artists table is the per-record projection of the catalog's
artist_-prefixed columns with the prefix stripped, with no deduplication:
each artist_id occurs in the artists table exactly as often as in the
catalog. -/
theorem C10_artists_projection (catalog : List SongRow) :
    artists_table catalog
      = catalog.map (fun s =>
          { artist_id := s.artist_id, name := s.artist_name,
            location := s.artist_location, latitude := s.artist_latitude,
            longitude := s.artist_longitude }) ∧
    (artists_table catalog).length = catalog.length ∧
    ∀ aid : Option String,
      ((artists_table catalog).map (fun r => r.artist_id)).count aid
        = (catalog.map (fun s => s.artist_id)).count aid := by
  refine ⟨rfl, List.length_map _ _, ?_⟩
  intro aid
  unfold artists_table
  rw [List.map_map]
  rfl

theorem C10_artists_projection_witness :
    artists_table [sampleSongA, sampleSongA2]
      = [sampleSongA, sampleSongA2].map (fun s =>
          { artist_id := s.artist_id, name := s.artist_name,
            location := s.artist_location, latitude := s.artist_latitude,
            longitude := s.artist_longitude }) ∧
    (artists_table [sampleSongA, sampleSongA2]).length
      = [sampleSongA, sampleSongA2].length ∧
    ∀ aid : Option String,
      ((artists_table [sampleSongA, sampleSongA2]).map (fun r => r.artist_id)).count aid
        = ([sampleSongA, sampleSongA2].map (fun s => s.artist_id)).count aid :=
  C10_artists_projection [sampleSongA, sampleSongA2]

/-- Model of `DataFrameWriter.parquet` at one output location. The source
(lines 47, 55, 84, 100, 133 of etl.py) never passes a `mode` option, so
Spark's default save mode ErrorIfExists applies: the write succeeds (result
`some rows`) only when nothing exists at the location; when any prior
content exists the job raises an error (result `none`) and writes nothing. -/
def writeParquet {α : Type} (existing : Option (List α)) (rows : List α) :
    Option (List α) :=
  match existing with
  | some _ => none
  | none => some rows

/-- The contents found at a table's output location after a write attempt:
the new rows on success, the untouched prior content on failure. -/
def locationAfter {α : Type} (existing : Option (List α)) (rows : List α) :
    List α :=
  match existing with
  | some old => old
  | none => rows

/-- Writing the songs table (line 47 of etl.py). -/
def writeSongs (existing : Option (List SongsRow)) (catalog : List SongRow) :
    Option (List SongsRow) :=
  writeParquet existing (songs_table catalog)

/-- Writing the artists table (line 55 of etl.py). -/
def writeArtists (existing : Option (List ArtistRow)) (catalog : List SongRow) :
    Option (List ArtistRow) :=
  writeParquet existing (artists_table catalog)

/-- Writing the users table (line 84 of etl.py). -/
def writeUsers (existing : Option (List UserRecord)) (rows : List LogRow) :
    Option (List UserRecord) :=
  writeParquet existing (users_table rows)

/-- Writing the time table (line 100 of etl.py). -/
def writeTime (existing : Option (List TimeRow)) (tz : Int) (rows : List LogRow) :
    Option (List TimeRow) :=
  writeParquet existing (time_table tz rows)

/-- Writing the songplays table (line 133 of etl.py). -/
def writeSongplays (existing : Option (List SongPlayRow)) (tz : Int)
    (catalog : List SongRow) (rows : List LogRow) : Option (List SongPlayRow) :=
  writeParquet existing (songplays_table tz catalog rows)

theorem C8_overwrite_counterexample :
    writeSongs (some []) [sampleSongA] = none ∧
    locationAfter (some []) (songs_table [sampleSongA]) = [] ∧
    locationAfter (some []) (songs_table [sampleSongA]) ≠ songs_table [sampleSongA] := by
  refine ⟨rfl, rfl, ?_⟩
  decide

/-- C8 (amended): the writer never merges with or appends to prior partition
contents — a successful write stores exactly this batch's rows — but writes
succeed only at an empty location: with any pre-existing content the write
fails (Spark's default ErrorIfExists mode) and the prior content is left
unchanged, so re-running over an existing output location errors instead of
overwriting. -/
theorem C8_write_error_if_exists (catalog : List SongRow) (rows : List LogRow)
    (tz : Int) :
    (writeSongs none catalog = some (songs_table catalog) ∧
      writeArtists none catalog = some (artists_table catalog) ∧
      writeUsers none rows = some (users_table rows) ∧
      writeTime none tz rows = some (time_table tz rows) ∧
      writeSongplays none tz catalog rows
        = some (songplays_table tz catalog rows)) ∧
    (∀ old : List SongsRow,
      writeSongs (some old) catalog = none ∧
      locationAfter (some old) (songs_table catalog) = old) ∧
    (∀ old : List SongPlayRow,
      writeSongplays (some old) tz catalog rows = none ∧
      locationAfter (some old) (songplays_table tz catalog rows) = old) := by
  exact ⟨⟨rfl, rfl, rfl, rfl, rfl⟩, fun old => ⟨rfl, rfl⟩, fun old => ⟨rfl, rfl⟩⟩

theorem C8_write_error_if_exists_witness :
    (writeSongs none [sampleSongA] = some (songs_table [sampleSongA]) ∧
      writeArtists none [sampleSongA] = some (artists_table [sampleSongA]) ∧
      writeUsers none [sampleLogFree] = some (users_table [sampleLogFree]) ∧
      writeTime none 0 [sampleLogFree] = some (time_table 0 [sampleLogFree]) ∧
      writeSongplays none 0 [sampleSongA] [sampleLogFree]
        = some (songplays_table 0 [sampleSongA] [sampleLogFree])) ∧
    (∀ old : List SongsRow,
      writeSongs (some old) [sampleSongA] = none ∧
      locationAfter (some old) (songs_table [sampleSongA]) = old) ∧
    (∀ old : List SongPlayRow,
      writeSongplays (some old) 0 [sampleSongA] [sampleLogFree] = none ∧
      locationAfter (some old) (songplays_table 0 [sampleSongA] [sampleLogFree]) = old) :=
  C8_write_error_if_exists [sampleSongA] [sampleLogFree] 0
